import Mathlib

/-!
Verification of the lead-generation pipeline in `src/main.py` (Lead Radar Pro).

Shallow embedding conventions:
* Python strings are `String`; Python substring containment (`w in s`) is `substr`.
* Python `None` is `Option.none`; Python truthiness of optional strings is `pyTruthy`
  (`None` and `""` are falsy).
* Python sets and `dict.fromkeys` used for order-insensitive/insertion-ordered
  deduplication are modelled by `pyDedup`, which keeps the first occurrence of
  each element.  (Python set enumeration order is unspecified; every claim about
  these collections is order-insensitive.)
* `datetime` values are epoch seconds (`Int`); the module constants `NOW` and
  `EARLIEST_TS` are threaded as an explicit `now : Int` argument.
* Python floats are modelled by `ℚ`.  `round(x, 4)` becomes `round4` (rounding
  half-up instead of bankers rounding; no claim depends on the half case).
* External libraries are abstracted as function arguments: `tldextract`
  (`extractDom`), `math.log1p` (`log1p`), the network (`fetchSite`), and the
  regex engines for e-mail/phone/years-of-experience matching (match lists are
  taken as inputs where the surrounding logic is embedded).
-/

/-! ## Generic Python-flavoured helpers -/

/-- Does the character list `ns` occur as a prefix of `hs`? -/
def startsWithChars : List Char → List Char → Bool
  | [], _ => true
  | _ :: _, [] => false
  | n :: ns, h :: hs => n == h && startsWithChars ns hs

/-- Does the character list `ns` occur as a contiguous sublist of `hs`? -/
def containsSub (ns : List Char) : List Char → Bool
  | [] => startsWithChars ns []
  | h :: hs => startsWithChars ns (h :: hs) || containsSub ns hs

/-- Python `needle in hay` for strings: substring containment. -/
def substr (needle hay : String) : Bool :=
  containsSub needle.data hay.data

/-- Python `s.lower()`: map `Char.toLower` over the characters. -/
def pyLower (s : String) : String :=
  ⟨s.data.map Char.toLower⟩

/-- Truthiness of an optional Python string: `None` and `""` are falsy. -/
def pyTruthy : Option String → Bool
  | none => false
  | some s => s ≠ ""

/-- Python `a or b` on optional strings. -/
def pyOr (a b : Option String) : Option String :=
  if pyTruthy a then a else b

/-- Collapse a falsy optional string to `none`. -/
def pyCollapse (a : Option String) : Option String :=
  if pyTruthy a then a else none

/-- The loop of `dedupe_by_key` (`src/main.py` lines 333-340), carrying the
`seen` set.  A key of `none` models a falsy Python key: since `out.append(it)`
sits inside the `if k and k not in seen` block, an item with a falsy key is
dropped entirely. -/
def dedupeGo {α κ : Type} [DecidableEq κ] (key : α → Option κ) :
    List α → List κ → List α
  | [], _ => []
  | it :: rest, seen =>
    match key it with
    | none => dedupeGo key rest seen
    | some k => if k ∈ seen then dedupeGo key rest seen
                else it :: dedupeGo key rest (k :: seen)

/-- `dedupe_by_key(items, key_func)` (lines 333-340). -/
def dedupe_by_key {α κ : Type} [DecidableEq κ] (items : List α) (key : α → Option κ) :
    List α :=
  dedupeGo key items []

/-- First-seen-wins deduplication in filter form: for a present key, keep the
first lead and drop every later lead with the same key; a lead whose key is
absent is dropped (matching the `if k and k not in seen` guard around the
append in the source). -/
def keepFirstByKey {α κ : Type} [DecidableEq κ] (key : α → Option κ) : List α → List α
  | [] => []
  | x :: t =>
    match key x with
    | none => keepFirstByKey key t
    | some k => x :: keepFirstByKey key (t.filter (fun y => key y ≠ some k))
termination_by l => l.length
decreasing_by
  · exact Nat.lt_succ_of_le (Nat.le_refl _)
  · exact Nat.lt_succ_of_le (List.length_filter_le _ t)

/-- Insertion-ordered deduplication, keeping the first occurrence of each
element.  Models Python `list(dict.fromkeys(l))`, and stands in for the
enumeration of a Python `set` built by inserting the elements of `l`: it is
first-seen-wins deduplication over the identity key. -/
def pyDedup {α : Type} [DecidableEq α] (l : List α) : List α :=
  dedupe_by_key l (fun a => some a)

/-! ## Configuration constants (`src/main.py` lines 77-118) -/

def CLIENT_HINTS : List String :=
  ["need developer", "looking for developer", "hiring contractor", "outsourcing",
   "agency", "mvp", "prototype", "poc", "[hiring]", "contract", "consultant needed"]

def CANDIDATE_HINTS : List String :=
  ["for hire", "open to work", "available for freelance", "available for contract",
   "[for hire]", "hire me", "seeking projects"]

def TRIGGER_KEYWORDS : List (String × List String) :=
  [("funding", ["seed", "pre-seed", "series a", "series b", "venture funding",
                "raised", "funding", "round"]),
   ("launch", ["launched", "launching", "product hunt", "beta", "v1",
               "public launch", "go live"]),
   ("hiring_freeze", ["hiring freeze", "budget freeze", "cost cutting",
                      "contractors only", "backfill with contractors"]),
   ("scale_up", ["scale", "scaling", "increasing demand", "rapid growth", "high growth"]),
   ("deadline", ["deadline", "urgent", "immediately", "asap", "deliver by",
                 "time sensitive"])]

def SKILL_LIB : List String :=
  ["python", "django", "flask", "fastapi", "pandas",
   "javascript", "typescript", "react", "node", "next.js", "vue", "angular", "svelte",
   "java", "spring", "kotlin", "swift", "objective-c",
   "ios", "android", "react native", "flutter",
   "php", "laravel", "symfony", "ruby", "rails", "go", "rust", "c#", ".net", "c++",
   "aws", "gcp", "azure", "devops", "docker", "kubernetes", "terraform",
   "postgres", "mysql", "mariadb", "mongodb", "redis", "elasticsearch", "graphql",
   "ai", "ml", "llm", "nlp", "computer vision", "pytorch", "tensorflow"]

def PORTFOLIO_SITES : List String :=
  ["github.com", "gitlab.com", "behance.net", "dribbble.com", "codepen.io",
   "linkedin.com", "portfolio", "notion.site"]

/-! ## Classifier (`classify_post`, lines 177-194) -/

inductive Label where
  | client
  | candidate
deriving DecidableEq

/-- Hint-voting and keyword-fallback rules of `classify_post` (lines 184-194),
factored out of the function body. -/
def classifyHints (s : String) : Option Label :=
  let client_hits := (CLIENT_HINTS.filter (fun w => substr w s)).length
  let cand_hits := (CANDIDATE_HINTS.filter (fun w => substr w s)).length
  if cand_hits > client_hits ∧ cand_hits > 0 then some Label.candidate
  else if client_hits > 0 then some Label.client
  else if substr "hire" s ∧ substr "developer" s then some Label.client
  else if (substr "available" s || substr "for hire" s) ∧ substr "developer" s then
    some Label.candidate
  else none

/-- `classify_post(title, text, subreddit)` (lines 177-194).  The joined text is
lowercased; a truthy `subreddit` equal (case-insensitively) to `"forhire"`
activates the convention-marker rules first. -/
def classify_post (title text : String) (subreddit : Option String) : Option Label :=
  let s := pyLower (title ++ " " ++ text)
  let isForhire :=
    match subreddit with
    | some sub => sub ≠ "" && pyLower sub == "forhire"
    | none => false
  if isForhire then
    if substr "[for hire]" s then some Label.candidate
    else if substr "[hiring]" s then some Label.client
    else classifyHints s
  else classifyHints s

/-! ## Scoring (`score_recency`, `score_trigger`, `score_engagement`,
`score_accessibility`, lines 147-175, and the two weighted combinations at
lines 482 and 524) -/

def MAX_DAYS : Int := 30

/-- `EARLIEST_TS = NOW - timedelta(days=MAX_DAYS)` (line 32), with datetimes as
epoch seconds and `NOW` threaded explicitly. -/
def EARLIEST_TS (now : Int) : Int := now - MAX_DAYS * 86400

/-- `within_30_days(dt)` (lines 130-131): `dt and dt >= EARLIEST_TS`.  A
`datetime` is always truthy, so the Python expression is truthy iff `dt` is not
`None` and is at or after the boundary. -/
def within_30_days (now : Int) (dt : Option Int) : Bool :=
  match dt with
  | none => false
  | some t => decide (EARLIEST_TS now ≤ t)

/-- `score_recency(dt)` (lines 147-151). -/
def score_recency (now : Int) (dt : Option Int) : ℚ :=
  match dt with
  | none => 0
  | some t =>
    let days : ℚ := ((now - t : Int) : ℚ) / 86400
    max 0 (min 1 (1 - days / 30))

/-- The per-bucket weights used inside `score_trigger` (line 161). -/
def bucketWeight (bucket : String) : ℚ :=
  if bucket = "funding" then 1
  else if bucket = "launch" then 0.8
  else if bucket = "hiring_freeze" then 0.7
  else if bucket = "scale_up" then 0.6
  else if bucket = "deadline" then 0.5
  else 0.4

/-- `score_trigger(text)` (lines 153-163). -/
def score_trigger (text : String) : ℚ :=
  if text = "" then 0
  else
    let t := pyLower text
    let total := (TRIGGER_KEYWORDS.map (fun bk =>
      let hits := (bk.2.filter (fun k => substr k t)).length
      if hits ≠ 0 then bucketWeight bk.1 * min (hits : ℚ) 3 else 0)).sum
    min 1 (total / 3)

/-- `score_engagement(points, comments)` (lines 165-169).  `math.log1p` is an
external library function, abstracted as the argument `log1p`. -/
def score_engagement (log1p : ℚ → ℚ) (points comments : Option Int) : ℚ :=
  let p : ℚ := ((points.getD 0 : Int) : ℚ)
  let c : ℚ := ((comments.getD 0 : Int) : ℚ)
  min 1 (log1p (p + 0.6 * c) / 5)

/-- `score_accessibility(has_email, has_phone)` (lines 171-175). -/
def score_accessibility (has_email has_phone : Bool) : ℚ :=
  let base : ℚ := if has_email then 0.3 else 0
  let base := if has_phone then base + 0.4 else base
  min 1 base

/-- Python `round(x, 4)` modelled over `ℚ`. -/
def round4 (x : ℚ) : ℚ := ((round (x * 10000) : ℤ) : ℚ) / 10000

/-- The pre-enrichment weighted combination (line 482):
`round(0.38*trig + 0.30*rec + 0.18*eng + 0.14*access, 4)`. -/
def scorePre (trig rec eng access : ℚ) : ℚ :=
  round4 (0.38 * trig + 0.30 * rec + 0.18 * eng + 0.14 * access)

/-- The post-enrichment weighted combination (line 524):
`round(0.36*trig + 0.28*rec + 0.16*eng + 0.20*access, 4)`. -/
def scorePost (trig rec eng access : ℚ) : ℚ :=
  round4 (0.36 * trig + 0.28 * rec + 0.16 * eng + 0.20 * access)

/-- The clamp described by the spec ("re-clamped to [0,1]"). -/
def clamp01 (x : ℚ) : ℚ := max 0 (min 1 x)

/-! ## The lead record

The pipeline passes dict-shaped records around; we model them as one structure
holding every field any stage reads or writes, with the Python-default values. -/

structure Lead where
  source : String := ""
  title : String := ""
  text : String := ""
  url : String := ""
  author : Option String := none
  created_at : Option Int := none
  points : Option Int := none
  comments : Option Int := none
  subreddit : Option String := none
  urls : List String := []
  company_name_guess : Option String := none
  company_website_guess : Option String := none
  company_domain_guess : Option String := none
  emails_inline : List String := []
  phones_inline : List String := []
  trigger : Option String := none
  industry_guess : Option String := none
  score : ℚ := 0
  site_title : Option String := none
  site_desc : Option String := none
  emails : List String := []
  phones : List String := []
  skills : List String := []
  availability : String := ""
  yoe : Option Nat := none
  location_guess : String := ""
  portfolios : List String := []
deriving DecidableEq

/-! ## Contact extraction (`find_emails`, `find_phones`, lines 245-266) -/

/-- `find_emails(text)` (lines 245-248): the regex matches are taken as input
(`ms`); the function lowercases them, deduplicates via a set, and caps the
result at 5. -/
def find_emails (ms : List String) : List String :=
  (pyDedup (ms.map pyLower)).take 5

/-- `find_phones(text)` (lines 250-266): `telMatches` are the `tel:` regex
match targets (text after the colon) and `validFormatted` the
internationally-formatted numbers that `phonenumbers` validated; both regex and
`phonenumbers` are external, so the two match lists are inputs.  The candidate
set is enumerated and capped at 5. -/
def find_phones (telMatches validFormatted : List String) : List String :=
  (pyDedup (telMatches ++ validFormatted)).take 5

/-! ## Site enrichment (`scrape_emails_phones_from_site`, lines 311-326, and
`enrich_client`, lines 503-533) -/

/-- The data consumed from one successfully fetched contact page: the targets
of `mailto:`/`tel:` anchors (text after the colon, in document order) and the
e-mail/phone regex scan results of the page visible text. -/
structure PageData where
  mailtos : List String := []
  telHrefs : List String := []
  textEmailMatches : List String := []
  textTelMatches : List String := []
  textValidPhones : List String := []
deriving DecidableEq

/-- The network results consumed by `enrich_client` for one site: the root-page
title and meta description (if retrievable) and the successfully fetched
contact pages, in `guess_contact_pages` order. -/
structure SiteResult where
  site_title : Option String := none
  site_desc : Option String := none
  pages : List PageData := []
deriving DecidableEq

/-- The page loop of `scrape_emails_phones_from_site` (lines 313-325), with the
accumulated e-mail and phone sets, breaking early once both have 5 entries. -/
def scrapeLoop : List PageData → List String → List String → List String × List String
  | [], es, ps => (es.take 5, ps.take 5)
  | pg :: rest, es, ps =>
    let es2 := pyDedup (es ++ pg.mailtos ++ find_emails pg.textEmailMatches)
    let ps2 := pyDedup (ps ++ pg.telHrefs ++ find_phones pg.textTelMatches pg.textValidPhones)
    if 5 ≤ es2.length ∧ 5 ≤ ps2.length then (es2.take 5, ps2.take 5)
    else scrapeLoop rest es2 ps2

/-- `scrape_emails_phones_from_site(base_url)` (lines 311-326) over the fetched
page data. -/
def scrape_emails_phones_from_site (pages : List PageData) : List String × List String :=
  scrapeLoop pages [] []

/-- `enrich_client(doc)` (lines 503-533).  `log1p` abstracts `math.log1p` and
`fetchSite` the network fetches for a given site URL. -/
def enrich_client (log1p : ℚ → ℚ) (fetchSite : String → SiteResult) (now : Int)
    (doc : Lead) : Lead :=
  let site := pyCollapse doc.company_website_guess
  let r :=
    match site with
    | some s =>
      let f := fetchSite s
      let ep := scrape_emails_phones_from_site f.pages
      let emails := (pyDedup (doc.emails_inline ++ ep.1)).take 5
      let phones := (pyDedup (doc.phones_inline ++ ep.2)).take 5
      (f.site_title, f.site_desc, emails, phones)
    | none => (none, none, doc.emails_inline, doc.phones_inline)
  let emails := r.2.2.1
  let phones := r.2.2.2
  let access_score := score_accessibility (!emails.isEmpty) (!phones.isEmpty)
  let rec_score := score_recency now doc.created_at
  let trig_score := score_trigger (doc.title ++ " " ++ doc.text)
  let eng_score := score_engagement log1p doc.points doc.comments
  let new_score := scorePost trig_score rec_score eng_score access_score
  { doc with
    site_title := r.1
    site_desc := r.2.1
    emails := emails
    phones := phones
    score := new_score }

/-! ## Candidate profiling (lines 539-556) -/

/-- Python `str.title()` for ASCII text: a letter is uppercased when the
previous character is not a letter, lowercased otherwise. -/
def pyTitleChars : List Char → Bool → List Char
  | [], _ => []
  | c :: cs, prevAlpha =>
    if c.isAlpha then
      (if prevAlpha then c.toLower else c.toUpper) :: pyTitleChars cs true
    else
      c :: pyTitleChars cs false

def pyTitle (s : String) : String :=
  ⟨pyTitleChars s.data false⟩

/-- The lexicographic order used by Python `sorted` on strings, as a total
preorder usable by `List.insertionSort`. -/
def strLe (a b : String) : Prop := ¬ b < a

instance : DecidableRel strLe := fun _ _ => instDecidableNot

/-- The candidate-enrichment loop body (lines 539-556).  The two `re.search`
results are external regex outcomes, passed as `m_yoe` (the parsed
years-of-experience group) and `m_loc` (the matched location token). -/
def profile_candidate (m_yoe : Option Nat) (m_loc : Option String) (d : Lead) : Lead :=
  let t := pyLower (d.title ++ " " ++ d.text)
  let skills := ((SKILL_LIB.filter (fun s => substr s t)).insertionSort strLe).take 15
  let avail :=
    if (["immediate", "asap", "available now"] : List String).any (fun k => substr k t)
    then "Immediate" else "Notice Period"
  let loc := match m_loc with
    | some g => pyTitle g
    | none => "Remote/Unspecified"
  let portfolios :=
    (d.urls.filter (fun u => PORTFOLIO_SITES.any (fun x => substr x u))).take 5
  { d with
    skills := skills
    availability := avail
    yoe := m_yoe
    location_guess := loc
    portfolios := portfolios }

/-! ## Deduplication keys (applied at lines 558-560) -/

/-- The client identity key (line 559):
`x.get("company_domain_guess") or extract_domain(x.get("url") or "") or x.get("url")`,
with `tldextract`-based `extract_domain` abstracted as `extractDom`.  The
result is collapsed to `none` when falsy, matching the `if k` check in
`dedupe_by_key`. -/
def clientKey (extractDom : String → Option String) (x : Lead) : Option String :=
  pyCollapse (pyOr (pyOr x.company_domain_guess (extractDom x.url)) (some x.url))

/-- The candidate identity key (line 560): the `(author, title)` tuple.  A
Python tuple is always truthy — even `(None, "")` — so the key is always
present. -/
def candKey (x : Lead) : Option (Option String × String) :=
  some (x.author, x.title)

/-! ## Ranking (lines 563-564) -/

/-- The sort order of `list.sort(key=lambda x: x["score"], reverse=True)`:
descending by score. -/
def leadGE (a b : Lead) : Prop := b.score ≤ a.score

instance : DecidableRel leadGE := fun a b => inferInstanceAs (Decidable (b.score ≤ a.score))

instance : IsTotal Lead leadGE := ⟨fun a b => le_total b.score a.score⟩

instance : IsTrans Lead leadGE := ⟨fun _ _ _ h₁ h₂ => le_trans h₂ h₁⟩

/-- Python `list.sort(key=..., reverse=True)` is a stable descending sort;
any stable sorting algorithm computes the same function, so we model it with
stable insertion sort. -/
def rankDesc (l : List Lead) : List Lead := l.insertionSort leadGE

/-! ## The classifier rules as the spec words them (claim C4) -/

/-- Follows the spec wording of the classifier (spec section 4.3): an ordered
rule chain where the first matching rule wins. -/
def classify_spec (title text : String) (subreddit : Option String) : Option Label :=
  let s := pyLower (title ++ " " ++ text)
  let isForhire :=
    match subreddit with
    | some sub => sub ≠ "" && pyLower sub == "forhire"
    | none => false
  let client_hits := (CLIENT_HINTS.filter (fun w => substr w s)).length
  let cand_hits := (CANDIDATE_HINTS.filter (fun w => substr w s)).length
  if isForhire && substr "[for hire]" s then some Label.candidate
  else if isForhire && substr "[hiring]" s then some Label.client
  else if cand_hits > client_hits ∧ cand_hits > 0 then some Label.candidate
  else if client_hits > 0 then some Label.client
  else if substr "hire" s ∧ substr "developer" s then some Label.client
  else if (substr "available" s || substr "for hire" s) ∧ substr "developer" s then
    some Label.candidate
  else none

/-! ## Theorems: temporal filter (C5) -/

/-- C5: the temporal filter accepts exactly the items whose timestamp exists
and is at or after the 30-day boundary; the boundary itself is accepted, and a
strictly earlier or missing timestamp is rejected. -/
theorem temporal_filter_boundary (now : Int) (dt : Option Int) :
    (within_30_days now dt = true ↔ ∃ t, dt = some t ∧ EARLIEST_TS now ≤ t)
    ∧ within_30_days now (some (EARLIEST_TS now)) = true
    ∧ (∀ t : Int, t < EARLIEST_TS now → within_30_days now (some t) = false)
    ∧ within_30_days now none = false := by
  refine ⟨?_, ?_, ?_, rfl⟩
  · cases dt with
    | none => simp [within_30_days]
    | some t => simp [within_30_days]
  · simp [within_30_days]
  · intro t ht
    simp only [within_30_days, decide_eq_false_iff_not]
    omega

theorem temporal_filter_boundary_witness :
    within_30_days 0 (some (EARLIEST_TS 0)) = true
    ∧ within_30_days 0 (some (EARLIEST_TS 0 - 1)) = false :=
  ⟨(temporal_filter_boundary 0 (some (EARLIEST_TS 0))).2.1,
   (temporal_filter_boundary 0 (some (EARLIEST_TS 0 - 1))).2.2.1 _ (by omega)⟩

/-! ## Theorems: candidate profiler frame property (C9) -/

/-- C9: the candidate profiler only adds the skills/availability/
years-of-experience/location/portfolio fields; the score set by the initial
scoring pass, and every other previously set field, are left unchanged. -/
theorem profile_candidate_frame (m_yoe : Option Nat) (m_loc : Option String) (d : Lead) :
    (profile_candidate m_yoe m_loc d).score = d.score
    ∧ (profile_candidate m_yoe m_loc d).source = d.source
    ∧ (profile_candidate m_yoe m_loc d).title = d.title
    ∧ (profile_candidate m_yoe m_loc d).text = d.text
    ∧ (profile_candidate m_yoe m_loc d).url = d.url
    ∧ (profile_candidate m_yoe m_loc d).author = d.author
    ∧ (profile_candidate m_yoe m_loc d).created_at = d.created_at
    ∧ (profile_candidate m_yoe m_loc d).points = d.points
    ∧ (profile_candidate m_yoe m_loc d).comments = d.comments
    ∧ (profile_candidate m_yoe m_loc d).subreddit = d.subreddit
    ∧ (profile_candidate m_yoe m_loc d).urls = d.urls
    ∧ (profile_candidate m_yoe m_loc d).company_name_guess = d.company_name_guess
    ∧ (profile_candidate m_yoe m_loc d).company_website_guess = d.company_website_guess
    ∧ (profile_candidate m_yoe m_loc d).company_domain_guess = d.company_domain_guess
    ∧ (profile_candidate m_yoe m_loc d).emails_inline = d.emails_inline
    ∧ (profile_candidate m_yoe m_loc d).phones_inline = d.phones_inline
    ∧ (profile_candidate m_yoe m_loc d).trigger = d.trigger
    ∧ (profile_candidate m_yoe m_loc d).industry_guess = d.industry_guess
    ∧ (profile_candidate m_yoe m_loc d).site_title = d.site_title
    ∧ (profile_candidate m_yoe m_loc d).site_desc = d.site_desc
    ∧ (profile_candidate m_yoe m_loc d).emails = d.emails
    ∧ (profile_candidate m_yoe m_loc d).phones = d.phones :=
  ⟨rfl, rfl, rfl, rfl, rfl, rfl, rfl, rfl, rfl, rfl, rfl, rfl, rfl, rfl, rfl, rfl,
   rfl, rfl, rfl, rfl, rfl, rfl⟩

/-! ## Theorems: classifier rule order (C4) and "for hire" coverage (C10) -/

/-- C4: the classifier applies its rules in the fixed order with the first
matching rule winning: the forhire-community marker rules, then hint voting
(candidate wins on a strict majority of candidate hits, else any client hit
gives Client), then the two keyword fallbacks, else no label. -/
theorem classify_post_rule_order (title text : String) (subreddit : Option String) :
    classify_post title text subreddit = classify_spec title text subreddit := by
  unfold classify_post classify_spec classifyHints
  cases hf : (match subreddit with
    | some sub => sub ≠ "" && pyLower sub == "forhire"
    | none => false) with
  | false => simp
  | true =>
    simp only [if_true]
    by_cases h1 : substr "[for hire]" (pyLower (title ++ " " ++ text)) = true
    · simp [h1]
    · simp only [Bool.not_eq_true] at h1
      by_cases h2 : substr "[hiring]" (pyLower (title ++ " " ++ text)) = true
      · simp [h1, h2]
      · simp only [Bool.not_eq_true] at h2
        simp [h1, h2]

/-- If the lowercased joined text contains `"for hire"`, the candidate-hint
hit count is positive, so the hint-voting rule always produces a label. -/
lemma classifyHints_isSome_of_for_hire {s : String}
    (h : substr "for hire" s = true) : (classifyHints s).isSome = true := by
  have hmem : "for hire" ∈ CANDIDATE_HINTS.filter (fun w => substr w s) :=
    List.mem_filter.mpr ⟨by simp [CANDIDATE_HINTS], h⟩
  have hpos : 0 < (CANDIDATE_HINTS.filter (fun w => substr w s)).length :=
    List.length_pos_of_mem hmem
  unfold classifyHints
  by_cases hgt : (CANDIDATE_HINTS.filter (fun w => substr w s)).length >
      (CLIENT_HINTS.filter (fun w => substr w s)).length
  · rw [if_pos ⟨hgt, hpos⟩]
    rfl
  · have hcl : (CLIENT_HINTS.filter (fun w => substr w s)).length > 0 := by omega
    rw [if_neg (by omega), if_pos hcl]
    rfl

/-- C10: any input whose case-folded joined text contains `"for hire"` is never
left unlabelled by the classifier. -/
theorem classify_post_for_hire_never_none (title text : String) (subreddit : Option String)
    (h : substr "for hire" (pyLower (title ++ " " ++ text)) = true) :
    (classify_post title text subreddit).isSome = true := by
  unfold classify_post
  cases hf : (match subreddit with
    | some sub => sub ≠ "" && pyLower sub == "forhire"
    | none => false) with
  | false => simpa using classifyHints_isSome_of_for_hire h
  | true =>
    simp only [if_true]
    by_cases h1 : substr "[for hire]" (pyLower (title ++ " " ++ text)) = true
    · simp [h1]
    · simp only [Bool.not_eq_true] at h1
      by_cases h2 : substr "[hiring]" (pyLower (title ++ " " ++ text)) = true
      · simp [h1, h2]
      · simp only [Bool.not_eq_true] at h2
        simpa [h1, h2] using classifyHints_isSome_of_for_hire h

theorem classify_post_for_hire_never_none_witness :
    substr "for hire" (pyLower ("for hire" ++ " " ++ "")) = true
    ∧ (classify_post "for hire" "" none).isSome = true :=
  ⟨by decide, classify_post_for_hire_never_none "for hire" "" none (by decide)⟩

/-! ## Theorems: score range (C6) -/

/-- Rounding to 4 decimal places keeps a value of `[0,1]` inside `[0,1]`. -/
lemma round4_mem_unit {x : ℚ} (h0 : 0 ≤ x) (h1 : x ≤ 1) :
    0 ≤ round4 x ∧ round4 x ≤ 1 := by
  have hl : (x * 10000 : ℚ) - 1 / 2 < round (x * 10000) := sub_half_lt_round _
  have hu : ((round (x * 10000) : ℤ) : ℚ) ≤ x * 10000 + 1 / 2 := round_le_add_half _
  have hn0 : (0 : ℤ) ≤ round (x * 10000) := by
    have : (-1 : ℚ) < ((round (x * 10000) : ℤ) : ℚ) := by nlinarith
    have := (by exact_mod_cast this : (-1 : ℤ) < round (x * 10000))
    omega
  have hn1 : round (x * 10000) ≤ 10000 := by
    have : ((round (x * 10000) : ℤ) : ℚ) < 10001 := by nlinarith
    have := (by exact_mod_cast this : round (x * 10000) < (10001 : ℤ))
    omega
  unfold round4
  constructor
  · exact div_nonneg (by exact_mod_cast hn0) (by norm_num)
  · rw [div_le_one (by norm_num)]
    exact_mod_cast hn1

/-- Rounding never raises a value of at most 1 above 1 (no lower bound
needed). -/
lemma round4_le_one {x : ℚ} (h1 : x ≤ 1) : round4 x ≤ 1 := by
  have hu : ((round (x * 10000) : ℤ) : ℚ) ≤ x * 10000 + 1 / 2 := round_le_add_half _
  have hn1 : round (x * 10000) ≤ 10000 := by
    have h2 : ((round (x * 10000) : ℤ) : ℚ) < 10001 := by nlinarith
    have h3 := (by exact_mod_cast h2 : round (x * 10000) < (10001 : ℤ))
    omega
  unfold round4
  rw [div_le_one (by norm_num)]
  exact_mod_cast hn1

lemma clamp01_of_mem_unit {x : ℚ} (h0 : 0 ≤ x) (h1 : x ≤ 1) : clamp01 x = x := by
  unfold clamp01
  rw [min_eq_right h1, max_eq_right h0]

lemma score_recency_mem_unit (now : Int) (dt : Option Int) :
    0 ≤ score_recency now dt ∧ score_recency now dt ≤ 1 := by
  cases dt with
  | none => simp [score_recency]
  | some t =>
    refine ⟨le_max_left _ _, ?_⟩
    exact max_le (by norm_num) (min_le_left _ _)

lemma bucketWeight_nonneg (b : String) : 0 ≤ bucketWeight b := by
  unfold bucketWeight
  split_ifs <;> norm_num

lemma score_trigger_mem_unit (s : String) :
    0 ≤ score_trigger s ∧ score_trigger s ≤ 1 := by
  unfold score_trigger
  split_ifs with h
  · norm_num
  · refine ⟨le_min (by norm_num) ?_, min_le_left _ _⟩
    refine div_nonneg ?_ (by norm_num)
    refine List.sum_nonneg ?_
    intro x hx
    obtain ⟨bk, _, rfl⟩ := List.mem_map.mp hx
    dsimp only
    split_ifs with hh
    · exact mul_nonneg (bucketWeight_nonneg _) (le_min (by positivity) (by norm_num))
    · exact le_refl 0

lemma score_accessibility_mem_unit (he hp : Bool) :
    0 ≤ score_accessibility he hp ∧ score_accessibility he hp ≤ 1 := by
  cases he <;> cases hp <;> constructor <;> norm_num [score_accessibility]

/-- C6 counterexample: the engagement sub-score is not bounded below by 0.
A downvoted Reddit post gives `points = -1`; with `comments = 1` the argument
passed to `math.log1p` is `-2/5`, where the real `log1p` is negative
(`ln(3/5) < 0`; the stand-in value `-1/2` has the same sign), so the
engagement sub-score is negative, and since the weighted sum at line 482
carries no clamp, the resulting lead score is below 0. -/
theorem score_unit_counterexample :
    ((-1 : Int) : ℚ) + 0.6 * ((1 : Int) : ℚ) = -(2/5)
    ∧ score_engagement (fun _ => -(1/2)) (some (-1)) (some 1) = -(1/10)
    ∧ scorePre 0 0 (score_engagement (fun _ => -(1/2)) (some (-1)) (some 1)) 0 < 0 := by
  have heng : score_engagement (fun _ => -(1/2)) (some (-1)) (some 1) = -(1/10) := by
    norm_num [score_engagement]
  refine ⟨by norm_num, heng, ?_⟩
  rw [heng]
  have hr : round ((-180 : ℚ)) = -180 := by
    rw [show ((-180 : ℚ)) = ((-180 : ℤ) : ℚ) by norm_num]
    exact round_intCast _
  norm_num [scorePre, round4, hr]

/-- C6 as amended: the recency, trigger and accessibility sub-scores always
lie in `[0,1]` and the engagement sub-score never exceeds 1, so both weighted
combinations never exceed 1; when the engagement sub-score is moreover
nonnegative (i.e. `points + 0.6*comments ≥ 0`), the combined score also stays
at or above 0 and agrees with the clamped formula the spec describes.  The
counterexample shows the lower bound fails for negative engagement: the code
carries no clamp. -/
theorem score_in_unit_amended :
    (∀ t r e a : ℚ, 0 ≤ t → t ≤ 1 → 0 ≤ r → r ≤ 1 → e ≤ 1 → 0 ≤ a → a ≤ 1 →
      scorePre t r e a ≤ 1 ∧ scorePost t r e a ≤ 1
      ∧ (0 ≤ e →
          0 ≤ scorePre t r e a ∧ 0 ≤ scorePost t r e a
          ∧ scorePre t r e a = round4 (clamp01 (0.38 * t + 0.30 * r + 0.18 * e + 0.14 * a))
          ∧ scorePost t r e a = round4 (clamp01 (0.36 * t + 0.28 * r + 0.16 * e + 0.20 * a))))
    ∧ (∀ (lg : ℚ → ℚ) (p c : Option Int), score_engagement lg p c ≤ 1)
    ∧ (∀ (now : Int) (dt : Option Int),
        0 ≤ score_recency now dt ∧ score_recency now dt ≤ 1)
    ∧ (∀ s : String, 0 ≤ score_trigger s ∧ score_trigger s ≤ 1)
    ∧ (∀ he hp : Bool,
        0 ≤ score_accessibility he hp ∧ score_accessibility he hp ≤ 1) := by
  refine ⟨?_, ?_, score_recency_mem_unit, score_trigger_mem_unit,
    score_accessibility_mem_unit⟩
  · intro t r e a ht0 ht1 hr0 hr1 he1 ha0 ha1
    have hpre1 : 0.38 * t + 0.30 * r + 0.18 * e + 0.14 * a ≤ 1 := by linarith
    have hpost1 : 0.36 * t + 0.28 * r + 0.16 * e + 0.20 * a ≤ 1 := by linarith
    refine ⟨round4_le_one hpre1, round4_le_one hpost1, ?_⟩
    intro he0
    have hpre0 : (0 : ℚ) ≤ 0.38 * t + 0.30 * r + 0.18 * e + 0.14 * a := by linarith
    have hpost0 : (0 : ℚ) ≤ 0.36 * t + 0.28 * r + 0.16 * e + 0.20 * a := by linarith
    exact ⟨(round4_mem_unit hpre0 hpre1).1, (round4_mem_unit hpost0 hpost1).1,
      by rw [clamp01_of_mem_unit hpre0 hpre1]; rfl,
      by rw [clamp01_of_mem_unit hpost0 hpost1]; rfl⟩
  · intro lg p c
    exact min_le_left _ _

theorem score_in_unit_amended_witness :
    scorePre 0 0 0 0 ≤ 1 ∧ 0 ≤ scorePre 0 0 0 0 :=
  ⟨(score_in_unit_amended.1 0 0 0 0 le_rfl zero_le_one le_rfl zero_le_one
      zero_le_one le_rfl zero_le_one).1,
   ((score_in_unit_amended.1 0 0 0 0 le_rfl zero_le_one le_rfl zero_le_one
      zero_le_one le_rfl zero_le_one).2.2 le_rfl).1⟩

/-! ## Theorems: deduplication (C3) -/

lemma keepFirst_nil {α κ : Type} [DecidableEq κ] (key : α → Option κ) :
    keepFirstByKey key [] = [] := by
  rw [keepFirstByKey.eq_def]

lemma keepFirst_cons {α κ : Type} [DecidableEq κ] (key : α → Option κ) (x : α) (t : List α) :
    keepFirstByKey key (x :: t) =
      match key x with
      | none => keepFirstByKey key t
      | some k => x :: keepFirstByKey key (t.filter (fun y => key y ≠ some k)) := by
  rw [keepFirstByKey.eq_def]

/-- The seen-set loop of `dedupe_by_key` computes first-seen-wins
deduplication of the sublist whose keys are not already seen. -/
lemma dedupeGo_eq_keepFirst {α κ : Type} [DecidableEq κ] (key : α → Option κ) :
    ∀ (l : List α) (seen : List κ),
      dedupeGo key l seen = keepFirstByKey key (l.filter (fun x =>
        match key x with
        | none => true
        | some k => decide (k ∉ seen))) := by
  intro l
  induction l with
  | nil => intro seen; rw [dedupeGo, List.filter_nil, keepFirst_nil]
  | cons x t ih =>
    intro seen
    rw [dedupeGo, List.filter_cons]
    cases hk : key x with
    | none =>
      simp only [hk, if_true]
      rw [keepFirst_cons]
      simp only [hk]
      rw [ih seen]
    | some k =>
      simp only [hk]
      by_cases hmem : k ∈ seen
      · rw [if_pos hmem, if_neg (by simp [hmem]), ih seen]
      · rw [if_neg hmem, if_pos (by simp [hmem]), keepFirst_cons]
        simp only [hk]
        rw [ih (k :: seen), List.filter_filter]
        congr 1
        congr 1
        apply List.filter_congr
        intro y _
        cases hy : key y with
        | none => simp
        | some ky => simp [List.mem_cons, not_or, Bool.and_comm]

/-- Deduplication only ever drops items: the output is a sublist of the input
(in particular, survivors keep their input order). -/
lemma keepFirst_sublist {α κ : Type} [DecidableEq κ] (key : α → Option κ) (l : List α) :
    List.Sublist (keepFirstByKey key l) l := by
  induction l using keepFirstByKey.induct key with
  | case1 => rw [keepFirst_nil]
  | case2 x t hk ih =>
    rw [keepFirst_cons]
    simp only [hk]
    exact ih.cons x
  | case3 x t k hk ih =>
    rw [keepFirst_cons]
    simp only [hk]
    exact (ih.trans (List.filter_sublist t)).cons₂ x

/-- No item with an absent key ever survives deduplication: the append sits
inside the `if k` guard, so every survivor carries a present key. -/
lemma keepFirst_filter_none {α κ : Type} [DecidableEq κ] (key : α → Option κ) (l : List α) :
    (keepFirstByKey key l).filter (fun x => (key x).isNone) = [] := by
  induction l using keepFirstByKey.induct key with
  | case1 => rw [keepFirst_nil]; rfl
  | case2 x t hk ih =>
    rw [keepFirst_cons]
    simp only [hk]
    exact ih
  | case3 x t k hk ih =>
    rw [keepFirst_cons]
    simp only [hk]
    rw [List.filter_cons]
    simp only [hk, Option.isNone_some, Bool.false_eq_true, if_false]
    exact ih

/-- `dedupe_by_key` computes exactly first-seen-wins deduplication. -/
lemma dedupe_by_key_eq_keepFirst {α κ : Type} [DecidableEq κ]
    (items : List α) (key : α → Option κ) :
    dedupe_by_key items key = keepFirstByKey key items := by
  unfold dedupe_by_key
  rw [dedupeGo_eq_keepFirst]
  congr 1
  apply List.filter_eq_self.mpr
  intro a _
  cases hk : key a <;> simp [hk]

/-- A Client lead with no identifying signal at all: no domain guess and an
empty post URL, so its identity key is falsy. -/
def c3doc : Lead := { title := "no key" }

/-- C3 counterexample: a lead whose identity key is empty/absent is NOT kept:
`out.append(it)` sits inside the `if k and k not in seen` block, so the
keyless lead is silently dropped, contradicting the always-kept clause. -/
theorem dedupe_drops_keyless_counterexample :
    clientKey (fun _ => none) c3doc = none
    ∧ dedupe_by_key [c3doc] (clientKey (fun _ => none)) = [] := by
  exact ⟨rfl, rfl⟩

/-- C3 as amended: the deduplicator is first-seen-wins on the identity keys
the pipeline uses (company-domain guess with URL fallbacks for clients, the
`(author, title)` tuple for candidates) and keeps survivors in input order,
but a lead whose identity key is empty/absent is always DROPPED, never kept.
A candidate key, being a Python tuple, is always present, so no candidate is
dropped by this rule. -/
theorem dedupe_first_seen_wins_amended (extractDom : String → Option String)
    (clients cands : List Lead) :
    dedupe_by_key clients (clientKey extractDom)
      = keepFirstByKey (clientKey extractDom) clients
    ∧ dedupe_by_key cands candKey = keepFirstByKey candKey cands
    ∧ List.Sublist (dedupe_by_key clients (clientKey extractDom)) clients
    ∧ List.Sublist (dedupe_by_key cands candKey) cands
    ∧ (dedupe_by_key clients (clientKey extractDom)).filter
        (fun x => (clientKey extractDom x).isNone) = []
    ∧ (∀ x : Lead, (candKey x).isSome = true) := by
  refine ⟨dedupe_by_key_eq_keepFirst _ _, dedupe_by_key_eq_keepFirst _ _, ?_, ?_, ?_, fun x => rfl⟩
  · rw [dedupe_by_key_eq_keepFirst]
    exact keepFirst_sublist _ _
  · rw [dedupe_by_key_eq_keepFirst]
    exact keepFirst_sublist _ _
  · rw [dedupe_by_key_eq_keepFirst]
    exact keepFirst_filter_none _ _

/-! ## Theorems: ranking (C8) -/

/-- Inserting into a sorted-descending list never reorders the elements of any
fixed score class: the new element lands after every earlier element of equal
score. -/
lemma filter_orderedInsert_score (c : ℚ) (a : Lead) (L : List Lead) :
    (L.orderedInsert leadGE a).filter (fun x => x.score = c)
      = if a.score = c then a :: L.filter (fun x => x.score = c)
        else L.filter (fun x => x.score = c) := by
  induction L with
  | nil => by_cases hc : a.score = c <;> simp [List.orderedInsert, hc]
  | cons y L ih =>
    rw [List.orderedInsert]
    by_cases hr : leadGE a y
    · rw [if_pos hr]
      by_cases hc : a.score = c <;> simp [List.filter_cons, hc]
    · rw [if_neg hr, List.filter_cons, List.filter_cons]
      by_cases hyc : y.score = c
      · have hac : ¬ a.score = c := by
          intro h
          exact hr (by unfold leadGE; rw [h, hyc])
        simp [hyc, ih, hac]
      · simp [hyc, ih]

/-- The ranker preserves the relative order of equal-score leads. -/
lemma filter_rankDesc_score (c : ℚ) (l : List Lead) :
    (rankDesc l).filter (fun x => x.score = c) = l.filter (fun x => x.score = c) := by
  induction l with
  | nil => rfl
  | cons a l ih =>
    unfold rankDesc at ih
    show ((l.insertionSort leadGE).orderedInsert leadGE a).filter _ = _
    rw [filter_orderedInsert_score, List.filter_cons]
    by_cases hc : a.score = c <;> simp [hc, ih]

/-- C8: the ranker returns a permutation of the post-dedupe list, sorted by
score in non-increasing order, and each score class keeps its relative input
order (stable sort, no secondary key). -/
theorem ranker_stable_descending (l : List Lead) :
    List.Perm (rankDesc l) l
    ∧ List.Sorted leadGE (rankDesc l)
    ∧ (∀ c : ℚ, (rankDesc l).filter (fun x => x.score = c)
        = l.filter (fun x => x.score = c)) :=
  ⟨List.perm_insertionSort leadGE l, List.sorted_insertionSort leadGE l,
   fun c => filter_rankDesc_score c l⟩

/-! ## Theorems: site enricher without a website (C1) -/

/-- When the website guess is absent, `enrich_client` copies the inline
contact lists verbatim and recomputes the score with the post-enrichment
weights over the unchanged sub-scores. -/
lemma enrich_client_no_site (log1p : ℚ → ℚ) (fetchSite : String → SiteResult)
    (now : Int) (doc : Lead) (h : doc.company_website_guess = none) :
    (enrich_client log1p fetchSite now doc).emails = doc.emails_inline
    ∧ (enrich_client log1p fetchSite now doc).phones = doc.phones_inline
    ∧ (enrich_client log1p fetchSite now doc).score
        = scorePost (score_trigger (doc.title ++ " " ++ doc.text))
            (score_recency now doc.created_at)
            (score_engagement log1p doc.points doc.comments)
            (score_accessibility (!doc.emails_inline.isEmpty) (!doc.phones_inline.isEmpty)) := by
  unfold enrich_client
  rw [h]
  exact ⟨rfl, rfl, rfl⟩

/-- A Client lead with a trigger-heavy text, no engagement, no contacts and no
website guess, carrying the pre-enrichment score
`scorePre 1 1 0 0 = 0.68` that the initial scoring pass assigns it. -/
def c1doc : Lead :=
  { text := "funding round raised"
    created_at := some 0
    score := 0.68 }

lemma c1doc_trigger : score_trigger (c1doc.title ++ " " ++ c1doc.text) = 1 := by
  have h : c1doc.title ++ " " ++ c1doc.text = " funding round raised" := rfl
  rw [h]
  simp +decide [score_trigger, TRIGGER_KEYWORDS, bucketWeight]

lemma c1doc_recency : score_recency 0 c1doc.created_at = 1 := by
  norm_num [score_recency, c1doc]

lemma c1doc_engagement : score_engagement (fun _ => 0) c1doc.points c1doc.comments = 0 := by
  norm_num [score_engagement, c1doc]

lemma c1doc_access :
    score_accessibility (!c1doc.emails_inline.isEmpty) (!c1doc.phones_inline.isEmpty) = 0 := by
  norm_num [score_accessibility, c1doc]

/-- C1 counterexample: with no company website, `enrich_client` still
recomputes the score with the post-enrichment weights, so the score field does
not keep its pre-enrichment value (0.68 becomes 0.64). -/
theorem enrich_no_site_rescore_counterexample :
    c1doc.company_website_guess = none
    ∧ c1doc.score = scorePre (score_trigger (c1doc.title ++ " " ++ c1doc.text))
        (score_recency 0 c1doc.created_at)
        (score_engagement (fun _ => 0) c1doc.points c1doc.comments)
        (score_accessibility (!c1doc.emails_inline.isEmpty) (!c1doc.phones_inline.isEmpty))
    ∧ (enrich_client (fun _ => 0) (fun _ => {}) 0 c1doc).score ≠ c1doc.score := by
  refine ⟨rfl, ?_, ?_⟩
  · rw [c1doc_trigger, c1doc_recency, c1doc_engagement, c1doc_access]
    norm_num [c1doc, scorePre, round4]
  · rw [(enrich_client_no_site (fun _ => 0) (fun _ => {}) 0 c1doc rfl).2.2,
      c1doc_trigger, c1doc_recency, c1doc_engagement, c1doc_access]
    norm_num [c1doc, scorePost, round4]

/-- C1 as amended: when the website guess is absent, `emails`/`phones` are
exactly the inline-extracted lists, but the score is recomputed with the
post-enrichment weights (over the unchanged sub-scores). -/
theorem enrich_no_site_amended (log1p : ℚ → ℚ) (fetchSite : String → SiteResult)
    (now : Int) (doc : Lead) (h : doc.company_website_guess = none) :
    (enrich_client log1p fetchSite now doc).emails = doc.emails_inline
    ∧ (enrich_client log1p fetchSite now doc).phones = doc.phones_inline
    ∧ (enrich_client log1p fetchSite now doc).score
        = scorePost (score_trigger (doc.title ++ " " ++ doc.text))
            (score_recency now doc.created_at)
            (score_engagement log1p doc.points doc.comments)
            (score_accessibility (!doc.emails_inline.isEmpty) (!doc.phones_inline.isEmpty)) :=
  enrich_client_no_site log1p fetchSite now doc h

theorem enrich_no_site_amended_witness :
    (enrich_client (fun _ => 0) (fun _ => {}) 0 c1doc).emails = c1doc.emails_inline
    ∧ (enrich_client (fun _ => 0) (fun _ => {}) 0 c1doc).phones = c1doc.phones_inline :=
  ⟨(enrich_no_site_amended (fun _ => 0) (fun _ => {}) 0 c1doc rfl).1,
   (enrich_no_site_amended (fun _ => 0) (fun _ => {}) 0 c1doc rfl).2.1⟩

/-! ## Theorems: contact-list deduplication and caps (C2) -/

lemma pyDedup_eq_keepFirst {α : Type} [DecidableEq α] (l : List α) :
    pyDedup l = keepFirstByKey (fun a => some a) l :=
  dedupe_by_key_eq_keepFirst l _

lemma pyDedup_subset {α : Type} [DecidableEq α] (l : List α) :
    ∀ a ∈ pyDedup l, a ∈ l := by
  intro a ha
  rw [pyDedup_eq_keepFirst] at ha
  exact (keepFirst_sublist _ l).mem ha

lemma pyDedup_nodup {α : Type} [DecidableEq α] (l : List α) :
    (pyDedup l).Nodup := by
  rw [pyDedup_eq_keepFirst]
  induction l using keepFirstByKey.induct (fun a : α => some a) with
  | case1 => rw [keepFirst_nil]; exact List.nodup_nil
  | case2 x t hk ih => exact absurd hk (by simp)
  | case3 x t k hk ih =>
    have hkx : k = x := by simpa using hk.symm
    subst hkx
    rw [keepFirst_cons]
    refine List.nodup_cons.mpr ⟨?_, ih⟩
    intro hx
    have hmem := (keepFirst_sublist _ _).mem hx
    have := List.of_mem_filter hmem
    simp at this

lemma char_ofNat_toNat_add32 {n : Nat} (h : 65 ≤ n ∧ n ≤ 90) :
    (Char.ofNat (n + 32)).toNat = n + 32 := by
  have hv : (n + 32).isValidChar := Or.inl (by omega)
  rw [Char.ofNat, dif_pos hv]
  rfl

lemma charToLower_idem (c : Char) : c.toLower.toLower = c.toLower := by
  by_cases h : 65 ≤ c.toNat ∧ c.toNat ≤ 90
  · have h1 : c.toLower = Char.ofNat (c.toNat + 32) := by
      simp [Char.toLower, h]
    rw [h1]
    have ht : (Char.ofNat (c.toNat + 32)).toNat = c.toNat + 32 := char_ofNat_toNat_add32 h
    have h2 : ¬ (65 ≤ (Char.ofNat (c.toNat + 32)).toNat
        ∧ (Char.ofNat (c.toNat + 32)).toNat ≤ 90) := by
      rw [ht]; omega
    simp [Char.toLower, h2]
  · simp [Char.toLower, h]

lemma pyLower_idem (s : String) : pyLower (pyLower s) = pyLower s := by
  unfold pyLower
  rw [List.map_map]
  exact congrArg String.mk (List.map_congr_left (fun a _ => charToLower_idem a))

/-- Every entry produced by `find_emails` is already lowercase. -/
lemma mem_find_emails_lower {a : String} {ms : List String} (ha : a ∈ find_emails ms) :
    pyLower a = a := by
  have h1 : a ∈ pyDedup (ms.map pyLower) := List.mem_of_mem_take ha
  have h2 : a ∈ ms.map pyLower := pyDedup_subset _ a h1
  obtain ⟨b, _, rfl⟩ := List.mem_map.mp h2
  exact pyLower_idem b

lemma find_emails_invariant (ms : List String) :
    (find_emails ms).Nodup ∧ (find_emails ms).length ≤ 5
    ∧ List.Pairwise (fun a b => pyLower a ≠ pyLower b) (find_emails ms) := by
  have hnd : (find_emails ms).Nodup :=
    (List.take_sublist _ _).nodup (pyDedup_nodup _)
  refine ⟨hnd, List.length_take_le _ _, ?_⟩
  refine hnd.imp_of_mem ?_
  intro a b ha hb hne
  rw [mem_find_emails_lower ha, mem_find_emails_lower hb]
  exact hne

lemma find_phones_invariant (telM valid : List String) :
    (find_phones telM valid).Nodup ∧ (find_phones telM valid).length ≤ 5 :=
  ⟨(List.take_sublist _ _).nodup (pyDedup_nodup _), List.length_take_le _ _⟩

/-- The contact lists attached to a Client lead by `enrich_client` are
exactly-duplicate-free and capped at 5, provided the inline lists already were
(which `find_emails`/`find_phones` guarantee). -/
lemma enrich_contact_invariant (log1p : ℚ → ℚ) (fetchSite : String → SiteResult)
    (now : Int) (doc : Lead)
    (h1 : doc.emails_inline.Nodup) (h2 : doc.emails_inline.length ≤ 5)
    (h3 : doc.phones_inline.Nodup) (h4 : doc.phones_inline.length ≤ 5) :
    (enrich_client log1p fetchSite now doc).emails.Nodup
    ∧ (enrich_client log1p fetchSite now doc).emails.length ≤ 5
    ∧ (enrich_client log1p fetchSite now doc).phones.Nodup
    ∧ (enrich_client log1p fetchSite now doc).phones.length ≤ 5 := by
  unfold enrich_client
  cases hc : pyCollapse doc.company_website_guess with
  | none => exact ⟨h1, h2, h3, h4⟩
  | some s =>
    exact ⟨(List.take_sublist _ _).nodup (pyDedup_nodup _), List.length_take_le _ _,
      (List.take_sublist _ _).nodup (pyDedup_nodup _), List.length_take_le _ _⟩

/-- A Client lead whose post text contains `sales@acme.com` and whose company
site exposes a `mailto:Sales@Acme.com` link. -/
def c2doc : Lead :=
  { emails_inline := ["sales@acme.com"]
    company_website_guess := some "https://acme.com" }

def c2fetch : String → SiteResult :=
  fun _ => { pages := [{ mailtos := ["Sales@Acme.com"] }] }

/-- C2 counterexample: a site-scraped `mailto:` target is kept verbatim and
merged with exact-string deduplication, so the enriched `emails` list can hold
two entries that are equal up to letter case. -/
theorem contact_case_dedup_counterexample :
    (enrich_client (fun _ => 0) c2fetch 0 c2doc).emails
      = ["sales@acme.com", "Sales@Acme.com"]
    ∧ pyLower "Sales@Acme.com" = pyLower "sales@acme.com"
    ∧ ("Sales@Acme.com" : String) ≠ "sales@acme.com"
    ∧ ¬ List.Pairwise (fun a b => pyLower a ≠ pyLower b)
        ((enrich_client (fun _ => 0) c2fetch 0 c2doc).emails) := by
  have he : (enrich_client (fun _ => 0) c2fetch 0 c2doc).emails
      = ["sales@acme.com", "Sales@Acme.com"] := by decide
  refine ⟨he, by decide, by decide, ?_⟩
  rw [he]
  intro hp
  exact (List.pairwise_cons.mp hp).1 "Sales@Acme.com" (List.mem_singleton.mpr rfl)
    (by decide)

/-- C2 as amended: every e-mail/phone collection is exactly-duplicate-free and
has length at most 5; the inline e-mail list is moreover case-insensitively
duplicate-free (its entries are lowercased), but the enriched Client `emails`
list is only exact-duplicate-free, since site-scraped `mailto:` targets are
kept verbatim. -/
theorem contact_lists_amended :
    (∀ ms : List String, (find_emails ms).Nodup ∧ (find_emails ms).length ≤ 5
      ∧ List.Pairwise (fun a b => pyLower a ≠ pyLower b) (find_emails ms))
    ∧ (∀ telM valid : List String,
        (find_phones telM valid).Nodup ∧ (find_phones telM valid).length ≤ 5)
    ∧ (∀ (log1p : ℚ → ℚ) (fetchSite : String → SiteResult) (now : Int) (doc : Lead),
        doc.emails_inline.Nodup → doc.emails_inline.length ≤ 5 →
        doc.phones_inline.Nodup → doc.phones_inline.length ≤ 5 →
        (enrich_client log1p fetchSite now doc).emails.Nodup
        ∧ (enrich_client log1p fetchSite now doc).emails.length ≤ 5
        ∧ (enrich_client log1p fetchSite now doc).phones.Nodup
        ∧ (enrich_client log1p fetchSite now doc).phones.length ≤ 5) :=
  ⟨find_emails_invariant, find_phones_invariant, enrich_contact_invariant⟩

theorem contact_lists_amended_witness :
    (enrich_client (fun _ => 0) c2fetch 0 c2doc).emails.Nodup
    ∧ (enrich_client (fun _ => 0) c2fetch 0 c2doc).emails.length ≤ 5 :=
  ⟨(contact_lists_amended.2.2 (fun _ => 0) c2fetch 0 c2doc (by decide) (by decide)
      (by decide) (by decide)).1,
   (contact_lists_amended.2.2 (fun _ => 0) c2fetch 0 c2doc (by decide) (by decide)
      (by decide) (by decide)).2.1⟩

/-! ## Theorems: permutation invariance of dedupe + rank (C7) -/

lemma mem_pyDedup_iff {α : Type} [DecidableEq α] {a : α} {l : List α} :
    a ∈ pyDedup l ↔ a ∈ l := by
  constructor
  · exact pyDedup_subset l a
  · rw [pyDedup_eq_keepFirst]
    induction l using keepFirstByKey.induct (fun a : α => some a) with
    | case1 => intro h; cases h
    | case2 x t hk ih => exact absurd hk (by simp)
    | case3 x t k hk ih =>
      intro ha
      obtain rfl : x = k := by simpa using hk
      rw [keepFirst_cons]
      rcases List.mem_cons.mp ha with rfl | ha
      · exact List.mem_cons_self _ _
      · by_cases hax : a = x
        · subst hax; exact List.mem_cons_self _ _
        · exact List.mem_cons_of_mem _ (ih (List.mem_filter.mpr ⟨ha, by simp [hax]⟩))

lemma pyDedup_cons {α : Type} [DecidableEq α] (x : α) (t : List α) :
    pyDedup (x :: t) = x :: pyDedup (t.filter (fun y => y ≠ x)) := by
  rw [pyDedup_eq_keepFirst, pyDedup_eq_keepFirst, keepFirst_cons]
  show x :: keepFirstByKey (fun a => some a) (t.filter (fun y => some y ≠ some x))
      = x :: keepFirstByKey (fun a => some a) (t.filter (fun y => y ≠ x))
  congr 1
  congr 1
  apply List.filter_congr
  intro y _
  simp

/-- `find?` over a filtered list agrees with `find?` over the original list
when every element satisfying the search predicate survives the filter. -/
lemma find?_filter_of_imp {α : Type} (p q : α → Bool)
    (h : ∀ y, p y = true → q y = true) (l : List α) :
    (l.filter q).find? p = l.find? p := by
  induction l with
  | nil => rfl
  | cons y t ih =>
    rw [List.filter_cons]
    by_cases hq : q y = true
    · rw [if_pos hq]
      by_cases hp : p y = true
      · rw [List.find?_cons_of_pos _ hp, List.find?_cons_of_pos _ hp]
      · rw [List.find?_cons_of_neg _ hp, List.find?_cons_of_neg _ hp, ih]
    · have hp : ¬ p y = true := fun hp => hq (h y hp)
      rw [if_neg hq, ih, List.find?_cons_of_neg _ hp]

/-- Keys surviving a key-filter commute with `filterMap`. -/
lemma filterMap_key_filter {α κ : Type} [DecidableEq κ] (key : α → Option κ) (k : κ)
    (l : List α) :
    (l.filterMap key).filter (fun k2 => k2 ≠ k)
      = (l.filter (fun y => key y ≠ some k)).filterMap key := by
  induction l with
  | nil => rfl
  | cons y t ih =>
    rw [List.filter_cons]
    cases hy : key y with
    | none =>
      rw [List.filterMap_cons_none hy, ih, if_pos (by simp [hy]),
        List.filterMap_cons_none hy]
    | some ky =>
      rw [List.filterMap_cons_some hy, List.filter_cons]
      by_cases hk : ky = k
      · subst hk
        rw [if_neg (by simp), if_neg (by simp [hy]), ih]
      · rw [if_pos (by simp [hk]), if_pos (by simp [hy, hk]),
          List.filterMap_cons_some hy, ih]

/-- The distinct present identity keys, in first-appearance order. -/
def keysInOrder {κ : Type} [DecidableEq κ] (key : Lead → Option κ) (l : List Lead) :
    List κ :=
  pyDedup (l.filterMap key)

/-- The score of the first lead carrying the given identity key (0 if none
does; only used at keys that occur). -/
def firstScore {κ : Type} [DecidableEq κ] (key : Lead → Option κ) (l : List Lead)
    (k : κ) : ℚ :=
  match l.find? (fun x => key x == some k) with
  | some x => x.score
  | none => 0

lemma firstScore_cons_none {κ : Type} [DecidableEq κ] {key : Lead → Option κ} {x : Lead}
    (hk : key x = none) (t : List Lead) (k2 : κ) :
    firstScore key (x :: t) k2 = firstScore key t k2 := by
  unfold firstScore
  rw [List.find?_cons_of_neg _ (by simp [hk])]

lemma firstScore_cons_self {κ : Type} [DecidableEq κ] {key : Lead → Option κ} {x : Lead}
    {k : κ} (hk : key x = some k) (t : List Lead) :
    firstScore key (x :: t) k = x.score := by
  unfold firstScore
  rw [List.find?_cons_of_pos _ (by simp [hk])]

lemma firstScore_cons_other {κ : Type} [DecidableEq κ] {key : Lead → Option κ} {x : Lead}
    {k k2 : κ} (hk : key x = some k) (hne : k2 ≠ k) (t : List Lead) :
    firstScore key (x :: t) k2 = firstScore key (t.filter (fun y => key y ≠ some k)) k2 := by
  unfold firstScore
  rw [List.find?_cons_of_neg _ (by simp [hk, Ne.symm hne]),
    find?_filter_of_imp _ _ ?_]
  intro y hy
  have hky : key y = some k2 := by simpa using hy
  simp [hky, hne]

/-- Decomposition of the deduplicated scores: since keyless leads are dropped,
the survivors are, in first-appearance order of their keys, exactly the first
lead carrying each distinct present key. -/
lemma keepFirst_scores_decomp {κ : Type} [DecidableEq κ] (key : Lead → Option κ)
    (l : List Lead) :
    (keepFirstByKey key l).map Lead.score
      = (keysInOrder key l).map (firstScore key l) := by
  induction l using keepFirstByKey.induct key with
  | case1 =>
    rw [keepFirst_nil]
    rfl
  | case2 x t hk ih =>
    rw [keepFirst_cons]
    simp only [hk]
    have h2 : keysInOrder key (x :: t) = keysInOrder key t := by
      unfold keysInOrder
      rw [List.filterMap_cons_none hk]
    have h3 : (keysInOrder key t).map (firstScore key (x :: t))
        = (keysInOrder key t).map (firstScore key t) :=
      List.map_congr_left (fun k2 _ => firstScore_cons_none hk t k2)
    rw [h2, h3, ih]
  | case3 x t k hk ih =>
    rw [keepFirst_cons]
    simp only [hk]
    rw [List.map_cons]
    have h2 : keysInOrder key (x :: t)
        = k :: keysInOrder key (t.filter (fun y => key y ≠ some k)) := by
      unfold keysInOrder
      rw [List.filterMap_cons_some hk, pyDedup_cons, filterMap_key_filter]
    have hne : ∀ k2 ∈ keysInOrder key (t.filter (fun y => key y ≠ some k)), k2 ≠ k := by
      intro k2 hk2
      have hmem : k2 ∈ (t.filter (fun y => key y ≠ some k)).filterMap key :=
        pyDedup_subset _ k2 hk2
      obtain ⟨y, hy, hky⟩ := List.mem_filterMap.mp hmem
      have hfy := List.of_mem_filter hy
      intro hkk
      subst hkk
      rw [hky] at hfy
      simp at hfy
    have h3 : (keysInOrder key (x :: t)).map (firstScore key (x :: t))
        = x.score :: (keysInOrder key (t.filter (fun y => key y ≠ some k))).map
            (firstScore key (t.filter (fun y => key y ≠ some k))) := by
      rw [h2, List.map_cons, firstScore_cons_self hk]
      congr 1
      exact List.map_congr_left (fun k2 hk2 => firstScore_cons_other hk (hne k2 hk2) t)
    rw [h3, ih]

lemma keysInOrder_perm {κ : Type} [DecidableEq κ] (key : Lead → Option κ)
    {l l2 : List Lead} (hp : List.Perm l l2) :
    List.Perm (keysInOrder key l) (keysInOrder key l2) := by
  apply (List.perm_ext_iff_of_nodup (pyDedup_nodup _) (pyDedup_nodup _)).mpr
  intro k
  rw [mem_pyDedup_iff, mem_pyDedup_iff]
  exact (hp.filterMap key).mem_iff

/-- When any two leads sharing a present key have equal scores, the
first-survivor score of each key is permutation-independent. -/
lemma firstScore_eq_of_perm {κ : Type} [DecidableEq κ] (key : Lead → Option κ)
    {l l2 : List Lead} (hp : List.Perm l l2)
    (hH : ∀ a ∈ l, ∀ b ∈ l, (key a).isSome = true → key a = key b → a.score = b.score)
    {k : κ} (hk : k ∈ keysInOrder key l2) :
    firstScore key l k = firstScore key l2 k := by
  have hk2 : k ∈ l2.filterMap key := pyDedup_subset _ k hk
  obtain ⟨b, hb, hkb⟩ := List.mem_filterMap.mp hk2
  have h2 : (l2.find? (fun x => key x == some k)).isSome := by
    rw [List.find?_isSome]
    exact ⟨b, hb, by simp [hkb]⟩
  obtain ⟨x2, hx2⟩ := Option.isSome_iff_exists.mp h2
  have h1 : (l.find? (fun x => key x == some k)).isSome := by
    rw [List.find?_isSome]
    exact ⟨b, hp.mem_iff.mpr hb, by simp [hkb]⟩
  obtain ⟨x1, hx1⟩ := Option.isSome_iff_exists.mp h1
  have hk1 : key x1 = some k := by simpa using List.find?_some hx1
  have hk2' : key x2 = some k := by simpa using List.find?_some hx2
  have hm1 : x1 ∈ l := List.mem_of_find?_eq_some hx1
  have hm2 : x2 ∈ l := hp.mem_iff.mpr (List.mem_of_find?_eq_some hx2)
  have hs := hH x1 hm1 x2 hm2 (by simp [hk1]) (by rw [hk1, hk2'])
  unfold firstScore
  rw [hx1, hx2]
  exact hs

lemma keepFirst_scores_perm {κ : Type} [DecidableEq κ] (key : Lead → Option κ)
    {l l2 : List Lead} (hp : List.Perm l l2)
    (hH : ∀ a ∈ l, ∀ b ∈ l, (key a).isSome = true → key a = key b → a.score = b.score) :
    List.Perm ((keepFirstByKey key l).map Lead.score)
      ((keepFirstByKey key l2).map Lead.score) := by
  rw [keepFirst_scores_decomp key l, keepFirst_scores_decomp key l2]
  refine ((keysInOrder_perm key hp).map _).trans ?_
  rw [List.map_congr_left (fun k hk => firstScore_eq_of_perm key hp hH hk)]

/-- Two Client leads with the same company-domain guess but different scores:
whichever comes first survives deduplication. -/
def c7a : Lead := { company_domain_guess := some "acme.com", score := 1 }

def c7b : Lead := { company_domain_guess := some "acme.com", score := 0 }

/-- A third lead sharing the key and the score of `c7a`. -/
def c7c : Lead := { company_domain_guess := some "acme.com", score := 1, title := "x" }

/-- C7 counterexample: first-seen-wins deduplication makes the ranked score
sequence depend on the pre-dedupe input order when two leads share an identity
key but have different scores. -/
theorem dedupe_rank_perm_counterexample :
    List.Perm [c7a, c7b] [c7b, c7a]
    ∧ (rankDesc (dedupe_by_key [c7a, c7b] (clientKey (fun _ => none)))).map Lead.score
      ≠ (rankDesc (dedupe_by_key [c7b, c7a] (clientKey (fun _ => none)))).map Lead.score :=
  ⟨List.Perm.swap c7b c7a [], by decide⟩

/-- C7 as amended: reordering the pre-dedupe input leaves the ranked score
sequence unchanged provided any two leads sharing a present identity key have
equal scores (the counterexample shows the unrestricted claim fails). -/
theorem dedupe_rank_score_perm_amended {κ : Type} [DecidableEq κ]
    (key : Lead → Option κ) (l l2 : List Lead) (hp : List.Perm l l2)
    (hH : ∀ a ∈ l, ∀ b ∈ l, (key a).isSome = true → key a = key b → a.score = b.score) :
    (rankDesc (dedupe_by_key l key)).map Lead.score
      = (rankDesc (dedupe_by_key l2 key)).map Lead.score := by
  haveI : IsAntisymm ℚ (fun a b : ℚ => b ≤ a) := ⟨fun a b h1 h2 => le_antisymm h2 h1⟩
  rw [dedupe_by_key_eq_keepFirst, dedupe_by_key_eq_keepFirst]
  have hperm : List.Perm ((rankDesc (keepFirstByKey key l)).map Lead.score)
      ((rankDesc (keepFirstByKey key l2)).map Lead.score) :=
    ((List.perm_insertionSort leadGE _).map _).trans
      ((keepFirst_scores_perm key hp hH).trans
        (((List.perm_insertionSort leadGE _).map _).symm))
  have hs1 : List.Sorted (fun a b : ℚ => b ≤ a)
      ((rankDesc (keepFirstByKey key l)).map Lead.score) :=
    (List.sorted_insertionSort leadGE _).map _ (fun a b h => h)
  have hs2 : List.Sorted (fun a b : ℚ => b ≤ a)
      ((rankDesc (keepFirstByKey key l2)).map Lead.score) :=
    (List.sorted_insertionSort leadGE _).map _ (fun a b h => h)
  exact List.eq_of_perm_of_sorted hperm hs1 hs2

theorem dedupe_rank_score_perm_amended_witness :
    (rankDesc (dedupe_by_key [c7a, c7c] (clientKey (fun _ => none)))).map Lead.score
      = (rankDesc (dedupe_by_key [c7c, c7a] (clientKey (fun _ => none)))).map Lead.score :=
  dedupe_rank_score_perm_amended (clientKey (fun _ => none)) [c7a, c7c] [c7c, c7a]
    (List.Perm.swap c7c c7a []) (by decide)
